import Mathlib

/-!
# Verification of the mpc-waas coordination core

A shallow embedding, in Lean, of the parts of the `mpc-waas` repository that
the checked claims are about:

* the RLP transaction codec used by the orchestrator
  (`src/app/src/api/wallet.rs`, `RawTransaction` / `SignedTransaction` with
  the `alloy_rlp` derived `Encodable`/`Decodable` instances);
* the relay room (`src/sse/src/main.rs`: `Room`, `Subscription`,
  `extract_last_event_id`);
* the participant's `v` computation (`src/participant/src/signing.rs`);
* the orchestrator handlers `create_wallet` and `send_tx`
  (`src/app/src/api/wallet.rs`), with external effects (participant RPC
  outcomes, DB operation outcomes, chain provider) passed as parameters.

Machine integers are modelled as `Nat` with explicit `% 2 ^ w` where the
source's wrapping behaviour matters (the relay's `u16` counters).
-/

namespace MpcWaas

/-! ## RLP encoding and decoding

`alloy_rlp` as used by the derived `RlpEncodable`/`RlpDecodable` instances on
`RawTransaction` and `SignedTransaction` in `src/app/src/api/wallet.rs`.
Bytes are `Nat`s; byte strings are `List Nat`.
-/

/-- Minimal big-endian byte representation of a natural number, as
`alloy_rlp` emits for integer types (`to_be_bytes` with leading zeros
trimmed); `0` maps to the empty byte string. -/
def beBytes (n : Nat) : List Nat :=
  if h : n = 0 then [] else beBytes (n / 256) ++ [n % 256]
termination_by n
decreasing_by exact Nat.div_lt_self (Nat.pos_of_ne_zero h) (by norm_num)

/-- Big-endian byte-string-to-natural conversion (`U256::from_be_slice` and
the integer read in `alloy_rlp` decoding). -/
def fromBE (bs : List Nat) : Nat :=
  bs.foldl (fun acc b => acc * 256 + b) 0

/-- `alloy_rlp` rejects integer payloads with a leading zero byte
(non-canonical encodings). `true` means the payload is acceptable. -/
def chkIntCanonical (bs : List Nat) : Bool :=
  match bs with
  | 0 :: _ => false
  | _ => true

/-- RLP encoding of a byte string (`alloy_rlp`'s string-item encoder):
a lone byte below `0x80` stands for itself; otherwise a length prefix
(`0x80 + len` for short strings, `0xb7 + len-of-len` followed by the
big-endian length for long ones). -/
def encStr (bs : List Nat) : List Nat :=
  if bs.length = 1 ∧ bs.headI < 128 then bs
  else if bs.length ≤ 55 then (128 + bs.length) :: bs
  else (183 + (beBytes bs.length).length) :: (beBytes bs.length ++ bs)

/-- RLP encoding of an integer: the string encoding of its minimal
big-endian bytes. -/
def encNat (n : Nat) : List Nat :=
  encStr (beBytes n)

/-- RLP list encoding from an already-encoded payload: `0xc0 + len` for
short payloads, `0xf7 + len-of-len` plus the big-endian length for long
ones (the header the derived struct encoder emits). -/
def encList (payload : List Nat) : List Nat :=
  if payload.length ≤ 55 then (192 + payload.length) :: payload
  else (247 + (beBytes payload.length).length) :: (beBytes payload.length ++ payload)

/-- Decode one RLP string item from the front of `input`, returning the
byte string and the unconsumed tail. Mirrors `alloy_rlp`'s `Header::decode`
plus payload read together with its canonicity checks: a single payload
byte below `0x80` must be encoded as itself, a long form must carry a
length above 55 with no leading zero, and a list header is refused. -/
def decStr (input : List Nat) : Option (List Nat × List Nat) :=
  match input with
  | [] => none
  | b :: rest =>
    if b < 128 then some ([b], rest)
    else if b ≤ 183 then
      let len := b - 128
      if len ≤ rest.length then
        let payload := rest.take len
        if len = 1 ∧ payload.headI < 128 then none
        else some (payload, rest.drop len)
      else none
    else if b ≤ 191 then
      let lenlen := b - 183
      if lenlen ≤ rest.length then
        let lenBytes := rest.take lenlen
        if chkIntCanonical lenBytes then
          let len := fromBE lenBytes
          if len ≤ 55 then none
          else if len ≤ rest.length - lenlen then
            some ((rest.drop lenlen).take len, (rest.drop lenlen).drop len)
          else none
        else none
      else none
    else none

/-- Decode an RLP integer occupying at most `byteLen` bytes (the width check
`alloy_rlp` performs for `u32`/`u64`/`U256`), rejecting leading zeros. -/
def decNat (byteLen : Nat) (input : List Nat) : Option (Nat × List Nat) :=
  match decStr input with
  | none => none
  | some (bs, rest) =>
    if byteLen < bs.length then none
    else if chkIntCanonical bs then some (fromBE bs, rest)
    else none

/-- Decode an RLP byte string of exactly `k` bytes (`alloy_rlp`'s
`FixedBytes<k>` decoding; `Address` is `FixedBytes<20>`). -/
def decFixedBytes (k : Nat) (input : List Nat) : Option (List Nat × List Nat) :=
  match decStr input with
  | none => none
  | some (bs, rest) => if bs.length = k then some (bs, rest) else none

/-- Decode an arbitrary RLP byte string (`Vec<u8>` decoding). -/
def decBytes (input : List Nat) : Option (List Nat × List Nat) :=
  decStr input

/-- Decode an RLP list header, returning the list payload and the
unconsumed tail, with `alloy_rlp`'s canonicity checks on long forms. -/
def decListHeader (input : List Nat) : Option (List Nat × List Nat) :=
  match input with
  | [] => none
  | b :: rest =>
    if b < 192 then none
    else if b ≤ 247 then
      let len := b - 192
      if len ≤ rest.length then some (rest.take len, rest.drop len) else none
    else
      let lenlen := b - 247
      if lenlen ≤ rest.length then
        let lenBytes := rest.take lenlen
        if chkIntCanonical lenBytes then
          let len := fromBE lenBytes
          if len ≤ 55 then none
          else if len ≤ rest.length - lenlen then
            some ((rest.drop lenlen).take len, (rest.drop lenlen).drop len)
          else none
        else none
      else none

/-! ## The orchestrator's Ethereum transaction structs

`RawTransaction` and `SignedTransaction` from `src/app/src/api/wallet.rs`,
with the `alloy_rlp` derived `Encodable`/`Decodable` instances spelled out.
-/

/-- `RawTransaction` (the unsigned Ethereum transaction): `nonce`,
`gas_price`, `gas_limit` are `u64`, `to` the 20-byte address, `value` a
`U256`, `data` the byte payload. -/
structure RawTransaction where
  nonce : Nat
  gas_price : Nat
  gas_limit : Nat
  recipient : List Nat
  value : Nat
  data : List Nat
deriving DecidableEq

/-- The Rust-type ranges of `RawTransaction`'s fields (`u64`, 20-byte
address, `U256`; a `Vec<u8>` never exceeds `isize::MAX` elements). -/
def RawTransaction.wf (tx : RawTransaction) : Prop :=
  tx.nonce < 2 ^ 64 ∧ tx.gas_price < 2 ^ 64 ∧ tx.gas_limit < 2 ^ 64 ∧
  tx.recipient.length = 20 ∧ tx.value < 2 ^ 256 ∧ tx.data.length < 2 ^ 63

instance (tx : RawTransaction) : Decidable tx.wf := by
  unfold RawTransaction.wf
  infer_instance

/-- The `alloy_rlp` derived encoder for `RawTransaction`: an RLP list of the
six fields in declaration order. -/
def RawTransaction.encode (tx : RawTransaction) : List Nat :=
  encList (encNat tx.nonce ++ (encNat tx.gas_price ++ (encNat tx.gas_limit ++
    (encStr tx.recipient ++ (encNat tx.value ++ encStr tx.data)))))

/-- The `alloy_rlp` derived decoder for `RawTransaction`: list header, the
six fields in order with their width checks (`u64` at most 8 bytes, the
address exactly 20 bytes, `U256` at most 32 bytes), and the
exact-consumption check the derive emits. Returns the decoded value and the
unconsumed tail of the input. -/
def RawTransaction.decode (input : List Nat) :
    Option (RawTransaction × List Nat) :=
  (decListHeader input).bind fun p0 =>
  (decNat 8 p0.1).bind fun f1 =>
  (decNat 8 f1.2).bind fun f2 =>
  (decNat 8 f2.2).bind fun f3 =>
  (decFixedBytes 20 f3.2).bind fun f4 =>
  (decNat 32 f4.2).bind fun f5 =>
  (decBytes f5.2).bind fun f6 =>
  if f6.2 = [] then some (⟨f1.1, f2.1, f3.1, f4.1, f5.1, f6.1⟩, p0.2) else none

/-- `SignedTransaction`: the unsigned fields followed by `v : u32` and the
`U256` scalars `r`, `s`. -/
structure SignedTransaction where
  nonce : Nat
  gas_price : Nat
  gas_limit : Nat
  recipient : List Nat
  value : Nat
  data : List Nat
  v : Nat
  r : Nat
  s : Nat
deriving DecidableEq

/-- The Rust-type ranges of `SignedTransaction`'s fields. -/
def SignedTransaction.wf (tx : SignedTransaction) : Prop :=
  tx.nonce < 2 ^ 64 ∧ tx.gas_price < 2 ^ 64 ∧ tx.gas_limit < 2 ^ 64 ∧
  tx.recipient.length = 20 ∧ tx.value < 2 ^ 256 ∧ tx.data.length < 2 ^ 63 ∧
  tx.v < 2 ^ 32 ∧ tx.r < 2 ^ 256 ∧ tx.s < 2 ^ 256

instance (tx : SignedTransaction) : Decidable tx.wf := by
  unfold SignedTransaction.wf
  infer_instance

/-- The `alloy_rlp` derived encoder for `SignedTransaction`: an RLP list of
the nine fields in declaration order. -/
def SignedTransaction.encode (tx : SignedTransaction) : List Nat :=
  encList (encNat tx.nonce ++ (encNat tx.gas_price ++ (encNat tx.gas_limit ++
    (encStr tx.recipient ++ (encNat tx.value ++ (encStr tx.data ++
    (encNat tx.v ++ (encNat tx.r ++ encNat tx.s))))))))

/-- The `alloy_rlp` derived decoder for `SignedTransaction`. -/
def SignedTransaction.decode (input : List Nat) :
    Option (SignedTransaction × List Nat) :=
  (decListHeader input).bind fun p0 =>
  (decNat 8 p0.1).bind fun f1 =>
  (decNat 8 f1.2).bind fun f2 =>
  (decNat 8 f2.2).bind fun f3 =>
  (decFixedBytes 20 f3.2).bind fun f4 =>
  (decNat 32 f4.2).bind fun f5 =>
  (decBytes f5.2).bind fun f6 =>
  (decNat 4 f6.2).bind fun f7 =>
  (decNat 32 f7.2).bind fun f8 =>
  (decNat 32 f8.2).bind fun f9 =>
  if f9.2 = [] then
    some (⟨f1.1, f2.1, f3.1, f4.1, f5.1, f6.1, f7.1, f8.1, f9.1⟩, p0.2)
  else none


/-! ## The participant's signature assembly

`Signing::sign_tx` in `src/participant/src/signing.rs`. The threshold-ECDSA
round itself and the `k256` trial recovery are external cryptography; the
recovery outcome enters the model as a parameter (`none` for `Err(_)`,
`some rec` for `Ok(id)` with `rec = id.to_byte()`).
-/

/-- The chain selector (`proto::mpc::Chain`, mirrored by the DB model
`Chain` with values `ethereum` and `bitcoin`). -/
inductive Chain
  | Ethereum
  | Bitcoin
deriving DecidableEq

/-- The `v` computation at the end of `Signing::sign_tx`: for Ethereum,
`chain_id * 2 + 35 + rec` with the hardcoded `chain_id = 1` when trial
recovery returns `Ok(rec)`, and on `Err(_)` the parity fallback on the last
byte of `r`'s 32-byte big-endian form (`37` if even, `38` if odd); for
Bitcoin, `0`. -/
def computeV (chain : Chain) (recovery : Option Nat) (r_be : List Nat) : Nat :=
  match chain with
  | Chain.Ethereum =>
    let chain_id := 1
    match recovery with
    | none => if r_be.getLast! % 2 = 0 then 37 else 38
    | some rec => chain_id * 2 + 35 + rec
  | Chain.Bitcoin => 0

/-- The triple `(r_bytes_be, s_bytes_be, v)` that `Signing::sign_tx` returns
to the orchestrator. -/
def sign_tx_output (chain : Chain) (r_be s_be : List Nat)
    (recovery : Option Nat) : List Nat × List Nat × Nat :=
  (r_be, s_be, computeV chain recovery r_be)

/-! ## The relay room (src/sse/src/main.rs)

`Room`, `Subscription` and the `Last-Event-ID` extraction. The `Notify`
primitive and the `subscribers` counter carry no data that reaches a
delivery, so the room state is the message vector plus the `u16` issuance
counter. `u16` arithmetic wraps modulo `2 ^ 16`.
-/

/-- Relay room state (`Room`): the ordered message vector and the value of
the `AtomicU16` counter `next_idx`. -/
structure Room where
  messages : List String
  next_idx : Nat
deriving DecidableEq

/-- `Room::empty`: no messages, counter at `0`. -/
def Room.empty : Room := ⟨[], 0⟩

/-- `Room::publish`: append the message to the vector and notify waiters;
the assigned index (`message_id` in the source) is the vector's prior
length. Returns the updated room and that index. -/
def Room.publish (room : Room) (message : String) : Room × Nat :=
  ({ room with messages := room.messages ++ [message] }, room.messages.length)

/-- `Room::issue_unique_idx`: `fetch_add(1)` on the `u16` counter,
returning the prior value; the increment wraps modulo `2 ^ 16`. -/
def Room.issue_unique_idx (room : Room) : Nat × Room :=
  (room.next_idx, { room with next_idx := (room.next_idx + 1) % 2 ^ 16 })

/-- The room state after `n` successive `issue_unique_idx` calls. -/
def issueIter (room : Room) : Nat → Room
  | 0 => room
  | n + 1 => ((issueIter room n).issue_unique_idx).2

/-- The value returned by call number `n` (counting from `0`) of
`issue_unique_idx` on `room`. -/
def nthIssued (room : Room) (n : Nat) : Nat :=
  ((issueIter room n).issue_unique_idx).1

/-- A live cursor into a room (`Subscription`): `next_event` is the `u16`
index of the next message to deliver. -/
structure Subscription where
  next_event : Nat
deriving DecidableEq

/-- `Room::subscribe`: the cursor starts at `last_seen_msg + 1` (`u16`
addition, wrapping modulo `2 ^ 16`) when a last-seen id was supplied, and at
`0` otherwise. The `subscribers` increment carries no delivery data. -/
def Room.subscribe (_room : Room) (last_seen_msg : Option Nat) : Subscription :=
  ⟨match last_seen_msg with
    | some i => (i + 1) % 2 ^ 16
    | none => 0⟩

/-- `Subscription::next`: if the room's vector has an entry at the cursor,
deliver it with id equal to the cursor and advance the cursor (`u16`,
wrapping); otherwise wait for a publish (`none`: no delivery yet). -/
def Subscription.next (sub : Subscription) (room : Room) :
    Option (Nat × String × Subscription) :=
  match room.messages[sub.next_event]? with
  | some msg => some (sub.next_event, msg, ⟨(sub.next_event + 1) % 2 ^ 16⟩)
  | none => none

/-- Successive `Subscription::next` deliveries against a fixed room state,
at most `fuel` of them, stopping when the subscription would wait. -/
def drain (room : Room) (sub : Subscription) : Nat → List (Nat × String)
  | 0 => []
  | fuel + 1 =>
    match sub.next room with
    | some (id, msg, sub') => (id, msg) :: drain room sub' fuel
    | none => []

/-- Decimal digit value of a character code (`char::to_digit(10)`). -/
def digitVal (c : Nat) : Option Nat :=
  if 48 ≤ c ∧ c ≤ 57 then some (c - 48) else none

/-- The digit loop of Rust's `u16::from_str`: multiply the accumulator by
ten and add each digit, failing on a non-digit or on overflow past
`u16::MAX`. -/
def parseU16Digits : List Nat → Nat → Option Nat
  | [], acc => some acc
  | c :: cs, acc =>
    match digitVal c with
    | none => none
    | some d =>
      if acc * 10 + d < 2 ^ 16 then parseU16Digits cs (acc * 10 + d) else none

/-- Rust's `str::parse::<u16>` over a list of character codes: an optional
leading `+` followed by at least one decimal digit, with the value capped
at `u16::MAX`; a leading `-` (code 45) hits the non-digit failure. -/
def parseU16 (s : List Nat) : Option Nat :=
  match s with
  | [] => none
  | c :: cs =>
    if c = 43 then
      if cs = [] then none else parseU16Digits cs 0
    else parseU16Digits (c :: cs) 0

/-- `HeaderValue::to_str` (http crate, used by `header.to_str()`): succeeds
only when every byte is visible ASCII (32–126) or horizontal tab, yielding
the bytes as character codes. -/
def headerToStr (bs : List Nat) : Option (List Nat) :=
  if ∀ b ∈ bs, (32 ≤ b ∧ b ≤ 126) ∨ b = 9 then some bs else none

/-- `extract_last_event_id`: read the `Last-Event-ID` header when present,
convert it to a string, parse it as `u16`; the `and_then` chain collapses
every failure to `None`. -/
def extract_last_event_id (header : Option (List Nat)) : Option Nat :=
  match header with
  | none => none
  | some bs => (headerToStr bs).bind parseU16

/-- The `subscribe` HTTP handler: extract the last-seen id from the request
and create the room subscription with it. -/
def subscribe_handler (room : Room) (header : Option (List Nat)) : Subscription :=
  room.subscribe (extract_last_event_id header)

/-! ## The orchestrator handlers (src/app/src/api/wallet.rs)

`create_wallet` and `send_tx` as functions of their external effects:
participant RPC outcomes, DB operation outcomes and the chain provider are
parameters, the returned state is what the call leaves committed. A DB
operation failing under `?`, or an explicit rollback, leaves the open
transaction unpersisted, so those paths return the caller's database state
unchanged.
-/

/-- A persisted wallet row (`tbl_wallets`, timestamps omitted). -/
structure Wallet where
  id : Int
  user_id : Int
  name : String
  chain : Chain
deriving DecidableEq

/-- A persisted transaction row (`tbl_transactions`, timestamps omitted). -/
structure TransactionRow where
  id : Int
  user_id : Int
  wallet_id : Int
deriving DecidableEq

/-- The orchestrator's committed database state. -/
structure DbState where
  wallets : List Wallet
  transactions : List TransactionRow
deriving DecidableEq

/-- Outcome of `create_wallet`: HTTP status, committed database state, and
the participants the `NewWallet` RPC was invoked on. -/
structure CreateResult where
  status : Nat
  db : DbState
  invoked : List Nat
deriving DecidableEq

/-- The `create_wallet` handler. `result p` is whether the `NewWallet` RPC
on participant `p` returned `Ok`; `newId` is the id the wallet insert
assigns; `beginOk`, `insertOk`, `commitOk` are the DB outcomes. The fan-out
maps over every configured participant and `join_all` waits for all of
them; `is_created` demands every result `Ok`. A rollback failure also maps
to 500 with nothing persisted. -/
def create_wallet (db : DbState) (user_id : Int) (name : String)
    (chain : Chain) (newId : Int) (participants : List Nat)
    (result : Nat → Bool) (beginOk insertOk commitOk : Bool) : CreateResult :=
  if !beginOk then ⟨500, db, []⟩
  else if !insertOk then ⟨500, db, []⟩
  else
    let wallet : Wallet := ⟨newId, user_id, name, chain⟩
    let is_created := (participants.map result).all (fun r => r)
    if is_created then
      if commitOk then
        ⟨201, { db with wallets := db.wallets ++ [wallet] }, participants⟩
      else ⟨500, db, participants⟩
    else ⟨500, db, participants⟩

/-- An orchestrator-visible effect of `send_tx`, in execution order:
a successful DB commit, an explicit DB rollback, a chain submission
accepted by the provider. -/
inductive Event
  | commit
  | rollback
  | submit
deriving DecidableEq

/-- Outcome of `send_tx`: HTTP status, the error body when one is set,
committed database state, participants the `SignTx` RPC was invoked on, the
`(r, s, v)` triple the handler consumed, the provider's accepted raw
transactions, and the ordered commit/rollback/submit effects. -/
structure SendTxResult where
  status : Nat
  errorMsg : Option String
  db : DbState
  invoked : List Nat
  usedSignature : Option (List Nat × List Nat × Nat)
  chain : List (List Nat)
  events : List Event
deriving DecidableEq

/-- The signature `send_tx` consumes from the fan-out results: `None`
unless every invoked participant succeeded (`is_signed`) and a first
response exists, in which case it is the first response's `(r, s, v)`
triple alone. -/
def firstSignature (results : List (Option (List Nat × List Nat × Nat))) :
    Option (List Nat × List Nat × Nat) :=
  if results.all (fun r => r.isSome) then results.head?.bind (fun r => r)
  else none

/-- The `send_tx` handler. `signResult p` is the `SignTx` outcome on
participant `p` (`some (r, s, v)` for `Ok`); `txnId` is the id the
`Transaction` insert assigns; `submitOk` is whether the provider accepts
`send_raw_transaction` (appending the raw bytes to `chain0`), `receiptOk`
whether `get_receipt` then succeeds. Mirrors the source's order: begin,
wallet lookup and ownership check, `Transaction` insert, per-chain unsigned
RLP (non-Ethereum chains are refused), fan-out over the first two
participants, signature from the first response, commit, then encode,
submit and await the receipt. -/
def send_tx (db : DbState) (user_id wallet_id : Int) (dest : List Nat)
    (value : Nat) (participants : List Nat)
    (signResult : Nat → Option (List Nat × List Nat × Nat)) (txnId : Int)
    (beginOk insertOk commitOk submitOk receiptOk : Bool)
    (chain0 : List (List Nat)) : SendTxResult :=
  if !beginOk then ⟨500, some "", db, [], none, chain0, []⟩
  else
    match db.wallets.find? (fun w => w.id == wallet_id) with
    | none => ⟨404, some "Wallet not found", db, [], none, chain0, []⟩
    | some w =>
      if w.user_id != user_id then
        ⟨404, some "Wallet not found", db, [], none, chain0, []⟩
      else if !insertOk then ⟨500, some "", db, [], none, chain0, []⟩
      else
        match w.chain with
        | Chain.Bitcoin =>
          ⟨400, some "Chain not supported", db, [], none, chain0, []⟩
        | Chain.Ethereum =>
          let invoked := participants.take 2
          let results := invoked.map signResult
          match firstSignature results with
          | none =>
            ⟨500, some "Failed to sign transaction", db, invoked, none, chain0,
              [Event.rollback]⟩
          | some (r, s, v) =>
            if !commitOk then
              ⟨500, some "Failed to sign transaction", db, invoked,
                some (r, s, v), chain0, []⟩
            else
              let db1 : DbState :=
                { db with
                  transactions := db.transactions ++ [⟨txnId, user_id, wallet_id⟩] }
              let signed_bytes :=
                (SignedTransaction.mk 10 1000000000 21000 dest value [] v
                  (fromBE r) (fromBE s)).encode
              if submitOk then
                if receiptOk then
                  ⟨200, none, db1, invoked, some (r, s, v),
                    chain0 ++ [signed_bytes], [Event.commit, Event.submit]⟩
                else
                  ⟨500, some "Failed to send transaction", db1, invoked,
                    some (r, s, v), chain0 ++ [signed_bytes],
                    [Event.commit, Event.submit]⟩
              else
                ⟨500, some "Failed to send transaction", db1, invoked,
                  some (r, s, v), chain0, [Event.commit]⟩

-- DEFS-END

theorem fromBE_append_singleton (bs : List Nat) (b : Nat) :
    fromBE (bs ++ [b]) = fromBE bs * 256 + b := by
  simp [fromBE, List.foldl_append]

theorem fromBE_beBytes (n : Nat) : fromBE (beBytes n) = n := by
  induction n using Nat.strong_induction_on with
  | _ n ih =>
    rw [beBytes]
    by_cases h : n = 0
    · simp [h, fromBE]
    · rw [dif_neg h, fromBE_append_singleton,
        ih (n / 256) (Nat.div_lt_self (Nat.pos_of_ne_zero h) (by norm_num))]
      omega

theorem beBytes_cons (n : Nat) (h : n ≠ 0) :
    ∃ b t, beBytes n = b :: t ∧ b ≠ 0 := by
  induction n using Nat.strong_induction_on with
  | _ n ih =>
    rw [beBytes, dif_neg h]
    by_cases hq : n / 256 = 0
    · refine ⟨n % 256, [], ?_, ?_⟩
      · rw [hq, beBytes]; simp
      · have : n < 256 := by omega
        omega
    · obtain ⟨b, t, hbt, hb⟩ :=
        ih (n / 256) (Nat.div_lt_self (Nat.pos_of_ne_zero h) (by norm_num)) hq
      exact ⟨b, t ++ [n % 256], by rw [hbt]; simp, hb⟩

theorem chkIntCanonical_beBytes (n : Nat) : chkIntCanonical (beBytes n) = true := by
  by_cases h : n = 0
  · subst h; rw [beBytes]; simp [chkIntCanonical]
  · obtain ⟨b, t, hbt, hb⟩ := beBytes_cons n h
    rw [hbt]
    cases b with
    | zero => exact absurd rfl hb
    | succ b => simp [chkIntCanonical]

theorem beBytes_length_le (L n : Nat) (h : n < 256 ^ L) :
    (beBytes n).length ≤ L := by
  induction L generalizing n with
  | zero =>
    have : n = 0 := by simpa using h
    subst this; rw [beBytes]; simp
  | succ L ih =>
    by_cases h0 : n = 0
    · subst h0; rw [beBytes]; simp
    · rw [beBytes, dif_neg h0]
      have hq : n / 256 < 256 ^ L := by
        rw [Nat.div_lt_iff_lt_mul (by norm_num)]
        calc n < 256 ^ (L + 1) := h
        _ = 256 ^ L * 256 := by ring
      have := ih (n / 256) hq
      simp only [List.length_append, List.length_cons, List.length_nil]
      omega

theorem beBytes_length_pos (n : Nat) (h : n ≠ 0) : 1 ≤ (beBytes n).length := by
  obtain ⟨b, t, hbt, _⟩ := beBytes_cons n h
  rw [hbt]; simp

theorem decStr_encStr (bs rest : List Nat) (hlen : bs.length < 2 ^ 64) :
    decStr (encStr bs ++ rest) = some (bs, rest) := by
  by_cases h1 : bs.length = 1 ∧ bs.headI < 128
  · obtain ⟨a, rfl⟩ := List.length_eq_one.mp h1.1
    have ha : a < 128 := by simpa using h1.2
    simp [encStr, h1, decStr, ha]
  · by_cases h2 : bs.length ≤ 55
    · rw [encStr, if_neg h1, if_pos h2, List.cons_append]
      simp only [decStr]
      rw [if_neg (by omega), if_pos (by omega)]
      have e1 : 128 + bs.length - 128 = bs.length := by omega
      rw [e1, if_pos (by simp), List.take_left, List.drop_left, if_neg h1]
    · rw [encStr, if_neg h1, if_neg h2, List.cons_append, List.append_assoc]
      simp only [decStr]
      have hL0 : bs.length ≠ 0 := by omega
      have hpos : 1 ≤ (beBytes bs.length).length := beBytes_length_pos _ hL0
      have hle8 : (beBytes bs.length).length ≤ 8 :=
        beBytes_length_le 8 bs.length (by norm_num at hlen ⊢; omega)
      rw [if_neg (by omega), if_neg (by omega), if_pos (by omega)]
      have e1 : 183 + (beBytes bs.length).length - 183 = (beBytes bs.length).length := by
        omega
      rw [e1, if_pos (by simp), List.take_left, chkIntCanonical_beBytes]
      rw [if_pos rfl, fromBE_beBytes, if_neg h2, List.drop_left,
        if_pos (by simp), List.take_left, List.drop_left]

theorem decListHeader_encList (payload rest : List Nat)
    (hlen : payload.length < 2 ^ 64) :
    decListHeader (encList payload ++ rest) = some (payload, rest) := by
  by_cases h2 : payload.length ≤ 55
  · rw [encList, if_pos h2, List.cons_append]
    simp only [decListHeader]
    rw [if_neg (by omega), if_pos (by omega)]
    have e1 : 192 + payload.length - 192 = payload.length := by omega
    rw [e1, if_pos (by simp), List.take_left, List.drop_left]
  · rw [encList, if_neg h2, List.cons_append, List.append_assoc]
    simp only [decListHeader]
    have hL0 : payload.length ≠ 0 := by omega
    have hpos : 1 ≤ (beBytes payload.length).length := beBytes_length_pos _ hL0
    have hle8 : (beBytes payload.length).length ≤ 8 :=
      beBytes_length_le 8 payload.length (by norm_num at hlen ⊢; omega)
    rw [if_neg (by omega), if_neg (by omega)]
    have e1 : 247 + (beBytes payload.length).length - 247
        = (beBytes payload.length).length := by omega
    rw [e1, if_pos (by simp), List.take_left, chkIntCanonical_beBytes]
    rw [if_pos rfl, fromBE_beBytes, if_neg h2, List.drop_left,
      if_pos (by simp), List.take_left, List.drop_left]

theorem decNat_encNat (L n : Nat) (rest : List Nat) (hn : n < 256 ^ L)
    (hL : L < 2 ^ 64) :
    decNat L (encNat n ++ rest) = some (n, rest) := by
  have hb : (beBytes n).length ≤ L := beBytes_length_le L n hn
  have hlt : ¬ L < (beBytes n).length := by omega
  rw [encNat, decNat, decStr_encStr _ _ (by omega)]
  simp [hlt, chkIntCanonical_beBytes, fromBE_beBytes]

theorem decFixedBytes_encStr (k : Nat) (bs rest : List Nat) (hk : bs.length = k)
    (hlen : bs.length < 2 ^ 64) :
    decFixedBytes k (encStr bs ++ rest) = some (bs, rest) := by
  rw [decFixedBytes, decStr_encStr _ _ hlen]
  simp [hk]

theorem decBytes_encStr (bs rest : List Nat) (hlen : bs.length < 2 ^ 64) :
    decBytes (encStr bs ++ rest) = some (bs, rest) :=
  decStr_encStr bs rest hlen

theorem encNat_length_le (L n : Nat) (hn : n < 256 ^ L) (hL : L ≤ 55) :
    (encNat n).length ≤ L + 1 := by
  have hb := beBytes_length_le L n hn
  rw [encNat, encStr]
  split_ifs with ha hc
  · omega
  · simp
    omega
  · exact absurd (le_trans hb hL) hc

theorem encStr_length_le (bs : List Nat) (hlen : bs.length < 2 ^ 64) :
    (encStr bs).length ≤ bs.length + 9 := by
  rw [encStr]
  split_ifs with ha hc
  · omega
  · simp
  · have hle8 : (beBytes bs.length).length ≤ 8 :=
      beBytes_length_le 8 bs.length (by norm_num at hlen ⊢; omega)
    simp
    omega

theorem pow256_8 : (256 : Nat) ^ 8 = 2 ^ 64 := by norm_num

theorem pow256_4 : (256 : Nat) ^ 4 = 2 ^ 32 := by norm_num

theorem pow256_32 : (256 : Nat) ^ 32 = 2 ^ 256 := by norm_num

theorem rawTransaction_decode_encode (tx : RawTransaction) (h : tx.wf) :
    RawTransaction.decode tx.encode = some (tx, []) := by
  obtain ⟨h1, h2, h3, h4, h5, h6⟩ := h
  have l1 : (encNat tx.nonce).length ≤ 9 :=
    encNat_length_le 8 _ (by rw [pow256_8]; exact h1) (by norm_num)
  have l2 : (encNat tx.gas_price).length ≤ 9 :=
    encNat_length_le 8 _ (by rw [pow256_8]; exact h2) (by norm_num)
  have l3 : (encNat tx.gas_limit).length ≤ 9 :=
    encNat_length_le 8 _ (by rw [pow256_8]; exact h3) (by norm_num)
  have l4 : (encStr tx.recipient).length ≤ 29 := by
    have := encStr_length_le tx.recipient (by omega)
    omega
  have l5 : (encNat tx.value).length ≤ 33 :=
    encNat_length_le 32 _ (by rw [pow256_32]; exact h5) (by norm_num)
  have l6 : (encStr tx.data).length ≤ tx.data.length + 9 :=
    encStr_length_le tx.data (by omega)
  have hp : (encNat tx.nonce ++ (encNat tx.gas_price ++ (encNat tx.gas_limit ++
      (encStr tx.recipient ++ (encNat tx.value ++ encStr tx.data))))).length
      < 2 ^ 64 := by
    simp only [List.length_append]
    omega
  have d0 := decListHeader_encList (encNat tx.nonce ++ (encNat tx.gas_price ++
    (encNat tx.gas_limit ++ (encStr tx.recipient ++ (encNat tx.value ++
    encStr tx.data))))) [] hp
  rw [List.append_nil] at d0
  have d1 := decNat_encNat 8 tx.nonce (encNat tx.gas_price ++ (encNat tx.gas_limit ++
    (encStr tx.recipient ++ (encNat tx.value ++ encStr tx.data))))
    (by rw [pow256_8]; exact h1) (by norm_num)
  have d2 := decNat_encNat 8 tx.gas_price (encNat tx.gas_limit ++
    (encStr tx.recipient ++ (encNat tx.value ++ encStr tx.data)))
    (by rw [pow256_8]; exact h2) (by norm_num)
  have d3 := decNat_encNat 8 tx.gas_limit
    (encStr tx.recipient ++ (encNat tx.value ++ encStr tx.data))
    (by rw [pow256_8]; exact h3) (by norm_num)
  have d4 := decFixedBytes_encStr 20 tx.recipient
    (encNat tx.value ++ encStr tx.data) h4 (by omega)
  have d5 := decNat_encNat 32 tx.value (encStr tx.data)
    (by rw [pow256_32]; exact h5) (by norm_num)
  have d6 := decBytes_encStr tx.data [] (by omega)
  rw [List.append_nil] at d6
  simp only [RawTransaction.decode, RawTransaction.encode, d0, d1, d2, d3, d4, d5,
    d6, Option.some_bind]
  simp

theorem signedTransaction_decode_encode (tx : SignedTransaction) (h : tx.wf) :
    SignedTransaction.decode tx.encode = some (tx, []) := by
  obtain ⟨h1, h2, h3, h4, h5, h6, h7, h8, h9⟩ := h
  have l1 : (encNat tx.nonce).length ≤ 9 :=
    encNat_length_le 8 _ (by rw [pow256_8]; exact h1) (by norm_num)
  have l2 : (encNat tx.gas_price).length ≤ 9 :=
    encNat_length_le 8 _ (by rw [pow256_8]; exact h2) (by norm_num)
  have l3 : (encNat tx.gas_limit).length ≤ 9 :=
    encNat_length_le 8 _ (by rw [pow256_8]; exact h3) (by norm_num)
  have l4 : (encStr tx.recipient).length ≤ 29 := by
    have := encStr_length_le tx.recipient (by omega)
    omega
  have l5 : (encNat tx.value).length ≤ 33 :=
    encNat_length_le 32 _ (by rw [pow256_32]; exact h5) (by norm_num)
  have l6 : (encStr tx.data).length ≤ tx.data.length + 9 :=
    encStr_length_le tx.data (by omega)
  have l7 : (encNat tx.v).length ≤ 5 :=
    encNat_length_le 4 _ (by rw [pow256_4]; exact h7) (by norm_num)
  have l8 : (encNat tx.r).length ≤ 33 :=
    encNat_length_le 32 _ (by rw [pow256_32]; exact h8) (by norm_num)
  have l9 : (encNat tx.s).length ≤ 33 :=
    encNat_length_le 32 _ (by rw [pow256_32]; exact h9) (by norm_num)
  have hp : (encNat tx.nonce ++ (encNat tx.gas_price ++ (encNat tx.gas_limit ++
      (encStr tx.recipient ++ (encNat tx.value ++ (encStr tx.data ++
      (encNat tx.v ++ (encNat tx.r ++ encNat tx.s)))))))).length < 2 ^ 64 := by
    simp only [List.length_append]
    omega
  have d0 := decListHeader_encList (encNat tx.nonce ++ (encNat tx.gas_price ++
    (encNat tx.gas_limit ++ (encStr tx.recipient ++ (encNat tx.value ++
    (encStr tx.data ++ (encNat tx.v ++ (encNat tx.r ++ encNat tx.s)))))))) [] hp
  rw [List.append_nil] at d0
  have d1 := decNat_encNat 8 tx.nonce (encNat tx.gas_price ++ (encNat tx.gas_limit ++
    (encStr tx.recipient ++ (encNat tx.value ++ (encStr tx.data ++
    (encNat tx.v ++ (encNat tx.r ++ encNat tx.s)))))))
    (by rw [pow256_8]; exact h1) (by norm_num)
  have d2 := decNat_encNat 8 tx.gas_price (encNat tx.gas_limit ++
    (encStr tx.recipient ++ (encNat tx.value ++ (encStr tx.data ++
    (encNat tx.v ++ (encNat tx.r ++ encNat tx.s))))))
    (by rw [pow256_8]; exact h2) (by norm_num)
  have d3 := decNat_encNat 8 tx.gas_limit (encStr tx.recipient ++
    (encNat tx.value ++ (encStr tx.data ++ (encNat tx.v ++
    (encNat tx.r ++ encNat tx.s)))))
    (by rw [pow256_8]; exact h3) (by norm_num)
  have d4 := decFixedBytes_encStr 20 tx.recipient (encNat tx.value ++
    (encStr tx.data ++ (encNat tx.v ++ (encNat tx.r ++ encNat tx.s))))
    h4 (by omega)
  have d5 := decNat_encNat 32 tx.value (encStr tx.data ++ (encNat tx.v ++
    (encNat tx.r ++ encNat tx.s)))
    (by rw [pow256_32]; exact h5) (by norm_num)
  have d6 := decBytes_encStr tx.data (encNat tx.v ++ (encNat tx.r ++ encNat tx.s))
    (by omega)
  have d7 := decNat_encNat 4 tx.v (encNat tx.r ++ encNat tx.s)
    (by rw [pow256_4]; exact h7) (by norm_num)
  have d8 := decNat_encNat 32 tx.r (encNat tx.s)
    (by rw [pow256_32]; exact h8) (by norm_num)
  have d9 := decNat_encNat 32 tx.s [] (by rw [pow256_32]; exact h9) (by norm_num)
  rw [List.append_nil] at d9
  simp only [SignedTransaction.decode, SignedTransaction.encode,
    d0, d1, d2, d3, d4, d5, d6, d7, d8, d9, Option.some_bind]
  simp

/-! ## Relay room lemmas -/

theorem issueIter_next_idx (n : Nat) :
    (issueIter Room.empty n).next_idx = n % 2 ^ 16 := by
  induction n with
  | zero => rfl
  | succ n ih =>
    show ((issueIter Room.empty n).issue_unique_idx).2.next_idx = (n + 1) % 2 ^ 16
    rw [Room.issue_unique_idx]
    simp only [ih]
    omega

theorem nthIssued_empty (n : Nat) : nthIssued Room.empty n = n % 2 ^ 16 := by
  rw [nthIssued, Room.issue_unique_idx, issueIter_next_idx]

/-- C5: successive `issue_unique_idx` calls on one room return `0, 1, 2, …`:
call number `n` (counting from `0`) returns `n`, and the returned values
are strictly increasing and pairwise distinct, up to the `u16` counter's
wrap at `2 ^ 16` (call number `2 ^ 16` returns `0` again). -/
theorem claim_C5_unique_idx (m n : Nat) (hmn : m < n) (hn : n < 2 ^ 16) :
    nthIssued Room.empty n = n ∧
    nthIssued Room.empty m < nthIssued Room.empty n ∧
    nthIssued Room.empty m ≠ nthIssued Room.empty n ∧
    nthIssued Room.empty (2 ^ 16) = 0 := by
  have h1 := nthIssued_empty n
  have h2 := nthIssued_empty m
  have h3 := nthIssued_empty (2 ^ 16)
  refine ⟨?_, ?_, ?_, ?_⟩ <;> omega

/-- Witness for C5 at calls `0` and `1`. -/
theorem claim_C5_unique_idx_witness :
    nthIssued Room.empty 1 = 1 ∧
    nthIssued Room.empty 0 < nthIssued Room.empty 1 ∧
    nthIssued Room.empty 0 ≠ nthIssued Room.empty 1 ∧
    nthIssued Room.empty (2 ^ 16) = 0 :=
  claim_C5_unique_idx 0 1 (by decide) (by norm_num)

theorem Subscription.next_eq_some (sub : Subscription) (room : Room)
    (id : Nat) (msg : String) (sub' : Subscription)
    (h : sub.next room = some (id, msg, sub')) :
    id = sub.next_event ∧ sub'.next_event = (sub.next_event + 1) % 2 ^ 16 ∧
    room.messages[sub.next_event]? = some msg := by
  rw [Subscription.next] at h
  cases hm : room.messages[sub.next_event]? with
  | none => rw [hm] at h; exact absurd h (by simp)
  | some m =>
    rw [hm] at h
    simp only [Option.some.injEq, Prod.mk.injEq] at h
    obtain ⟨h1, h2, h3⟩ := h
    refine ⟨h1.symm, ?_, congrArg some h2⟩
    rw [← h3]

theorem Subscription.next_eq (sub : Subscription) (room : Room) :
    sub.next room = (room.messages[sub.next_event]?).map
      (fun msg => (sub.next_event, msg, ⟨(sub.next_event + 1) % 2 ^ 16⟩)) := by
  rw [Subscription.next]
  cases room.messages[sub.next_event]? <;> rfl

/-- C4 as stated fails at the `u16` cursor wrap: in a room holding
`2 ^ 16 + 1` messages, the subscription that has just delivered index
`65535` (with wrapped cursor `0`) next delivers index `0`, which is neither
`65536` nor an increase. -/
theorem claim_C4_counterexample :
    Subscription.next ⟨65535⟩ ⟨List.replicate 65537 "m", 0⟩
      = some (65535, "m", ⟨0⟩) ∧
    Subscription.next ⟨0⟩ ⟨List.replicate 65537 "m", 0⟩
      = some (0, "m", ⟨1⟩) ∧
    ¬ (65535 : Nat) < 0 := by
  have hget : (List.replicate 65537 "m")[(65535 : Nat)]? = some "m" := by
    rw [List.getElem?_replicate]
    norm_num
  have hget0 : (List.replicate 65537 "m")[(0 : Nat)]? = some "m" := by
    rw [List.getElem?_replicate]
    norm_num
  refine ⟨?_, ?_, by omega⟩
  · rw [Subscription.next_eq]
    dsimp only
    rw [hget]
    norm_num
  · rw [Subscription.next_eq]
    dsimp only
    rw [hget0]
    norm_num

/-- C4 (amended): `publish` assigns each appended message the index equal
to the vector's prior length; a delivery's id equals the subscription's
cursor, and after delivering id `k` the cursor is `(k + 1) % 2 ^ 16` — so
the next delivered id is `k + 1` whenever `k + 1 < 2 ^ 16`, the `u16`
cursor wrapping to `0` past index `65535`. -/
theorem claim_C4_delivery (room : Room) (m : String) (sub sub1 : Subscription)
    (k : Nat) (msg : String) (h : sub.next room = some (k, msg, sub1)) :
    (room.publish m).2 = room.messages.length ∧
    k = sub.next_event ∧
    sub1.next_event = (k + 1) % 2 ^ 16 ∧
    (k + 1 < 2 ^ 16 →
      ∀ (room2 : Room) (k2 : Nat) (msg2 : String) (sub2 : Subscription),
        sub1.next room2 = some (k2, msg2, sub2) → k2 = k + 1) := by
  obtain ⟨h1, h2, _⟩ := Subscription.next_eq_some sub room k msg sub1 h
  refine ⟨rfl, h1, by rw [h2, h1], ?_⟩
  intro hk room2 k2 msg2 sub2 h4
  obtain ⟨h5, _, _⟩ := Subscription.next_eq_some sub1 room2 k2 msg2 sub2 h4
  rw [h5, h2, ← h1, Nat.mod_eq_of_lt hk]

/-- Witness for C4 (amended) on a two-message room. -/
theorem claim_C4_delivery_witness :
    (Room.publish ⟨["a", "b"], 0⟩ "c").2
      = (Room.mk ["a", "b"] 0).messages.length ∧
    (0 : Nat) = (Subscription.mk 0).next_event ∧
    (Subscription.mk 1).next_event = (0 + 1) % 2 ^ 16 ∧
    ((0 : Nat) + 1 < 2 ^ 16 →
      ∀ (room2 : Room) (k2 : Nat) (msg2 : String) (sub2 : Subscription),
        Subscription.next ⟨1⟩ room2 = some (k2, msg2, sub2) → k2 = 0 + 1) :=
  claim_C4_delivery ⟨["a", "b"], 0⟩ "c" ⟨0⟩ ⟨1⟩ 0 "a" (by decide)

theorem drain_eq_enumFrom (room : Room) :
    ∀ fuel c : Nat, c + fuel ≤ room.messages.length →
      room.messages.length ≤ 2 ^ 16 →
      drain room ⟨c⟩ fuel = ((room.messages.drop c).take fuel).enumFrom c := by
  intro fuel
  induction fuel with
  | zero => intro c h1 h2; simp [drain]
  | succ fuel ih =>
    intro c h1 h2
    have hc : c < room.messages.length := by omega
    have hnext : Subscription.next ⟨c⟩ room
        = some (c, room.messages.get ⟨c, hc⟩, ⟨(c + 1) % 2 ^ 16⟩) := by
      rw [Subscription.next_eq]
      simp [List.getElem?_eq_getElem hc]
    rw [drain, hnext]
    dsimp only
    rw [List.drop_eq_getElem_cons hc, List.take_succ_cons, List.enumFrom_cons]
    cases fuel with
    | zero => simp [drain]
    | succ f =>
      have e : (c + 1) % 2 ^ 16 = c + 1 := Nat.mod_eq_of_lt (by omega)
      rw [e, ih (c + 1) (by omega) h2]
      simp

/-- C6 as stated fails in two ways at the `u16` boundary. Header present:
`"65535"` parses, but the cursor computation `last + 1` wraps, so the
cursor starts at `0`, not at `65536`. Header absent on a room holding
`2 ^ 16 + 1` messages: the subscriber starts at `0`, but after delivering
id `65535` its cursor wraps back to `0`, so the next delivery is id `0`
again and the message at index `65536` is never delivered — the subscriber
does not receive all previously published messages. -/
theorem claim_C6_counterexample :
    (extract_last_event_id (some [54, 53, 53, 51, 53]) = some 65535 ∧
      (subscribe_handler Room.empty (some [54, 53, 53, 51, 53])).next_event = 0 ∧
      (0 : Nat) ≠ 65535 + 1) ∧
    ((subscribe_handler ⟨List.replicate 65537 "m", 0⟩ none).next_event = 0 ∧
      Subscription.next ⟨65535⟩ ⟨List.replicate 65537 "m", 0⟩
        = some (65535, "m", ⟨0⟩) ∧
      Subscription.next ⟨0⟩ ⟨List.replicate 65537 "m", 0⟩
        = some (0, "m", ⟨1⟩)) := by
  refine ⟨⟨by decide, by decide, by omega⟩, rfl, ?_, ?_⟩
  · have hget : (List.replicate 65537 "m")[(65535 : Nat)]? = some "m" := by
      rw [List.getElem?_replicate]
      norm_num
    rw [Subscription.next_eq]
    dsimp only
    rw [hget]
    norm_num
  · have hget0 : (List.replicate 65537 "m")[(0 : Nat)]? = some "m" := by
      rw [List.getElem?_replicate]
      norm_num
    rw [Subscription.next_eq]
    dsimp only
    rw [hget0]
    norm_num

/-- C6 (amended): with a `Last-Event-ID` of `last`, the subscription's
cursor starts at `(last + 1) % 2 ^ 16` — equal to `last + 1` whenever
`last + 1 < 2 ^ 16`, in which case the first delivered event (against any
room state) has id `last + 1`, the subscription waiting while no message
at that index exists; with the header absent the cursor starts at `0` and,
while the room holds at most `2 ^ 16` messages, draining delivers every
previously published message from index `0` upward — the `u16` cursor
cannot address indices past `65535`, so in a larger room the tail is never
delivered. -/
theorem claim_C6_resumption (room : Room) (last : Nat) :
    (room.subscribe (some last)).next_event = (last + 1) % 2 ^ 16 ∧
    (last + 1 < 2 ^ 16 →
      (∀ (room2 : Room) (id : Nat) (msg : String) (sub' : Subscription),
        (room.subscribe (some last)).next room2 = some (id, msg, sub') →
          id = last + 1) ∧
      (∀ room2 : Room, room2.messages.length ≤ last + 1 →
        (room.subscribe (some last)).next room2 = none)) ∧
    (room.subscribe none).next_event = 0 ∧
    (room.messages.length ≤ 2 ^ 16 →
      drain room (room.subscribe none) room.messages.length
        = room.messages.enum) := by
  refine ⟨rfl, ?_, rfl, ?_⟩
  · intro hlt
    constructor
    · intro room2 id msg sub' h
      obtain ⟨h1, _, _⟩ :=
        Subscription.next_eq_some (room.subscribe (some last)) room2 id msg sub' h
      rw [h1]
      exact Nat.mod_eq_of_lt hlt
    · intro room2 hlen
      rw [Subscription.next_eq]
      have : room2.messages[(room.subscribe (some last)).next_event]? = none := by
        apply List.getElem?_eq_none
        show room2.messages.length ≤ (last + 1) % 2 ^ 16
        rw [Nat.mod_eq_of_lt hlt]
        exact hlen
      rw [this]
      rfl
  · intro hlen
    have := drain_eq_enumFrom room room.messages.length 0 (by omega) hlen
    rw [Room.subscribe]
    rw [this]
    simp [List.enum]

/-- Witness for C6 (amended) at `last = 3` on a one-message room. -/
theorem claim_C6_resumption_witness :
    ((Room.mk ["a"] 0).subscribe (some 3)).next_event = (3 + 1) % 2 ^ 16 ∧
    (3 + 1 < 2 ^ 16 →
      (∀ (room2 : Room) (id : Nat) (msg : String) (sub' : Subscription),
        ((Room.mk ["a"] 0).subscribe (some 3)).next room2 = some (id, msg, sub') →
          id = 3 + 1) ∧
      (∀ room2 : Room, room2.messages.length ≤ 3 + 1 →
        ((Room.mk ["a"] 0).subscribe (some 3)).next room2 = none)) ∧
    ((Room.mk ["a"] 0).subscribe none).next_event = 0 ∧
    ((Room.mk ["a"] 0).messages.length ≤ 2 ^ 16 →
      drain (Room.mk ["a"] 0) ((Room.mk ["a"] 0).subscribe none)
        (Room.mk ["a"] 0).messages.length = (Room.mk ["a"] 0).messages.enum) :=
  claim_C6_resumption (Room.mk ["a"] 0) 3

/-! ## Last-Event-ID parsing lemmas -/

theorem parseU16Digits_mem_none (cs : List Nat) (acc c : Nat) (hc : c ∈ cs)
    (hd : digitVal c = none) : parseU16Digits cs acc = none := by
  induction cs generalizing acc with
  | nil => exact absurd hc (by simp)
  | cons c0 cs ih =>
    rw [parseU16Digits]
    cases hd0 : digitVal c0 with
    | none => rfl
    | some d =>
      dsimp only
      have hne : c ≠ c0 := by
        intro he
        rw [he, hd0] at hd
        exact absurd hd (by simp)
      have hmem : c ∈ cs := by
        cases List.mem_cons.mp hc with
        | inl h => exact absurd h hne
        | inr h => exact h
      by_cases hov : acc * 10 + d < 2 ^ 16
      · rw [if_pos hov]
        exact ih (acc * 10 + d) hmem
      · rw [if_neg hov]

theorem parseU16Digits_le (cs : List Nat) :
    ∀ acc n : Nat, acc ≤ 65535 → parseU16Digits cs acc = some n → n ≤ 65535 := by
  induction cs with
  | nil =>
    intro acc n hacc h
    rw [parseU16Digits] at h
    simp only [Option.some.injEq] at h
    omega
  | cons c0 cs ih =>
    intro acc n hacc h
    rw [parseU16Digits] at h
    cases hd0 : digitVal c0 with
    | none => rw [hd0] at h; exact absurd h (by simp)
    | some d =>
      rw [hd0] at h
      dsimp only at h
      by_cases hov : acc * 10 + d < 2 ^ 16
      · rw [if_pos hov] at h
        exact ih (acc * 10 + d) n (by omega) h
      · rw [if_neg hov] at h
        exact absurd h (by simp)

theorem parseU16_le (s : List Nat) (n : Nat) (h : parseU16 s = some n) :
    n ≤ 65535 := by
  cases s with
  | nil => rw [parseU16] at h; exact absurd h (by simp)
  | cons c cs =>
    rw [parseU16] at h
    by_cases hplus : c = 43
    · rw [if_pos hplus] at h
      by_cases hnil : cs = []
      · rw [if_pos hnil] at h
        exact absurd h (by simp)
      · rw [if_neg hnil] at h
        exact parseU16Digits_le _ 0 n (by omega) h
    · rw [if_neg hplus] at h
      exact parseU16Digits_le _ 0 n (by omega) h

theorem parseU16_mem_none (s : List Nat) (c : Nat) (hc : c ∈ s)
    (hd : digitVal c = none) (hne : c ≠ 43) : parseU16 s = none := by
  cases s with
  | nil => rfl
  | cons c0 cs =>
    rw [parseU16]
    by_cases hplus : c0 = 43
    · rw [if_pos hplus]
      have hmem : c ∈ cs := by
        cases List.mem_cons.mp hc with
        | inl h => exact absurd (h.trans hplus) hne
        | inr h => exact h
      by_cases hnil : cs = []
      · rw [if_pos hnil]
      · rw [if_neg hnil]
        exact parseU16Digits_mem_none _ 0 c hmem hd
    · rw [if_neg hplus]
      exact parseU16Digits_mem_none _ 0 c hc hd

/-- C10: a `Last-Event-ID` header that is absent, not (visible-ASCII) text
— which covers every byte sequence that is not valid UTF-8 — or not
parseable as a `u16` (a leading minus sign, any non-digit character, or any
value that would exceed `65535`) is treated as absent, and the
subscription's cursor starts at index `0`. -/
theorem claim_C10_invalid_header (room : Room) (header : Option (List Nat)) :
    extract_last_event_id none = none ∧
    (∀ bs : List Nat, ¬ (∀ b ∈ bs, (32 ≤ b ∧ b ≤ 126) ∨ b = 9) →
      extract_last_event_id (some bs) = none) ∧
    (∀ s : List Nat, parseU16 (45 :: s) = none) ∧
    (∀ (s : List Nat) (c : Nat), c ∈ s → digitVal c = none → c ≠ 43 →
      parseU16 s = none) ∧
    (∀ (s : List Nat) (n : Nat), parseU16 s = some n → n ≤ 65535) ∧
    (extract_last_event_id header = none →
      (subscribe_handler room header).next_event = 0) := by
  refine ⟨rfl, ?_, ?_, parseU16_mem_none, parseU16_le, ?_⟩
  · intro bs hbs
    rw [extract_last_event_id, headerToStr, if_neg hbs]
    rfl
  · intro s
    exact parseU16_mem_none (45 :: s) 45 (by simp) (by decide) (by decide)
  · intro h
    rw [subscribe_handler, h]
    rfl

/-- Witness for C10 on a header carrying `-1`. -/
theorem claim_C10_invalid_header_witness :
    (extract_last_event_id none = none ∧
      (∀ bs : List Nat, ¬ (∀ b ∈ bs, (32 ≤ b ∧ b ≤ 126) ∨ b = 9) →
        extract_last_event_id (some bs) = none) ∧
      (∀ s : List Nat, parseU16 (45 :: s) = none) ∧
      (∀ (s : List Nat) (c : Nat), c ∈ s → digitVal c = none → c ≠ 43 →
        parseU16 s = none) ∧
      (∀ (s : List Nat) (n : Nat), parseU16 s = some n → n ≤ 65535) ∧
      (extract_last_event_id (some [45, 49]) = none →
        (subscribe_handler Room.empty (some [45, 49])).next_event = 0)) ∧
    (subscribe_handler Room.empty (some [45, 49])).next_event = 0 :=
  ⟨claim_C10_invalid_header Room.empty (some [45, 49]),
    (claim_C10_invalid_header Room.empty (some [45, 49])).2.2.2.2.2 (by decide)⟩

/-! ## Signature assembly -/

/-- C3: the participant's per-chain `v` in `SignTx`: for Ethereum, when
trial recovery succeeds with recovery id `rec ∈ {0, 1}`,
`v = chain_id * 2 + 35 + rec` with the hardcoded `chain_id = 1`; when it
fails, `v = 37` if the last byte of `r`'s big-endian form is even and `38`
if odd; for Bitcoin, `v = 0`. -/
theorem claim_C3_v_computation (recovery : Option Nat) (rec : Nat)
    (r_be s_be : List Nat) (hrec : rec = 0 ∨ rec = 1) :
    sign_tx_output Chain.Ethereum r_be s_be (some rec)
      = (r_be, s_be, 1 * 2 + 35 + rec) ∧
    sign_tx_output Chain.Ethereum r_be s_be none
      = (r_be, s_be, if r_be.getLast! % 2 = 0 then 37 else 38) ∧
    sign_tx_output Chain.Bitcoin r_be s_be recovery = (r_be, s_be, 0) := by
  refine ⟨rfl, rfl, ?_⟩
  rw [sign_tx_output, computeV]

/-- Witness for C3 with `rec = 0` and an odd-ended `r`. -/
theorem claim_C3_v_computation_witness :
    sign_tx_output Chain.Ethereum [7] [8] (some 0) = ([7], [8], 1 * 2 + 35 + 0) ∧
    sign_tx_output Chain.Ethereum [7] [8] none
      = ([7], [8], if ([7] : List Nat).getLast! % 2 = 0 then 37 else 38) ∧
    sign_tx_output Chain.Bitcoin [7] [8] none = ([7], [8], 0) :=
  claim_C3_v_computation none 0 [7] [8] (Or.inl rfl)

/-! ## Orchestrator handler theorems -/

/-- C1: the create-wallet ceremony invokes `NewWallet` on every configured
participant and waits for all of them; if all report success the handler
commits and returns 201 with the new wallet row appended (provided the
commit itself succeeds); if any participant fails it rolls back and
returns 500; and after every non-201 outcome the database is unchanged, so
no `Wallet` row exists after a failed create-wallet call. -/
theorem claim_C1_create_wallet_atomic (db : DbState) (user_id : Int)
    (name : String) (chain : Chain) (newId : Int) (participants : List Nat)
    (result : Nat → Bool) (commitOk : Bool) :
    (create_wallet db user_id name chain newId participants result
        true true commitOk).invoked = participants ∧
    ((∀ p ∈ participants, result p = true) → commitOk = true →
      (create_wallet db user_id name chain newId participants result
          true true commitOk).status = 201 ∧
      (create_wallet db user_id name chain newId participants result
          true true commitOk).db.wallets
        = db.wallets ++ [⟨newId, user_id, name, chain⟩]) ∧
    ((∃ p ∈ participants, result p = false) →
      (create_wallet db user_id name chain newId participants result
          true true commitOk).status = 500 ∧
      (create_wallet db user_id name chain newId participants result
          true true commitOk).db = db) ∧
    ((create_wallet db user_id name chain newId participants result
        true true commitOk).status ≠ 201 →
      (create_wallet db user_id name chain newId participants result
          true true commitOk).db = db) := by
  have he : create_wallet db user_id name chain newId participants result
      true true commitOk
      = if (participants.map result).all (fun r => r) then
          (if commitOk then
            ⟨201,
              { db with wallets := db.wallets ++ [⟨newId, user_id, name, chain⟩] },
              participants⟩
          else ⟨500, db, participants⟩)
        else ⟨500, db, participants⟩ := rfl
  have hall_iff : ((participants.map result).all (fun r => r) = true)
      ↔ ∀ p ∈ participants, result p = true := by
    simp [List.all_map, Function.comp]
  rw [he]
  by_cases hcr : (participants.map result).all (fun r => r) = true
  · rw [if_pos hcr]
    by_cases hco : commitOk = true
    · rw [if_pos hco]
      refine ⟨rfl, fun _ _ => ⟨rfl, rfl⟩, ?_, fun hne => absurd rfl hne⟩
      intro hex
      obtain ⟨p, hp, hfalse⟩ := hex
      have := hall_iff.mp hcr p hp
      rw [hfalse] at this
      exact absurd this (by simp)
    · rw [if_neg hco]
      exact ⟨rfl, fun _ hc => absurd hc hco, fun _ => ⟨rfl, rfl⟩, fun _ => rfl⟩
  · rw [if_neg hcr]
    refine ⟨rfl, ?_, fun _ => ⟨rfl, rfl⟩, fun _ => rfl⟩
    intro hall _
    exact absurd (hall_iff.mpr hall) hcr

/-- Witness for C1 with three healthy participants. -/
theorem claim_C1_create_wallet_atomic_witness :
    (create_wallet ⟨[], []⟩ 7 "w1" Chain.Ethereum 1 [1, 2, 3] (fun _ => true)
        true true true).invoked = [1, 2, 3] ∧
    ((∀ p ∈ [1, 2, 3], (fun _ : Nat => true) p = true) → true = true →
      (create_wallet ⟨[], []⟩ 7 "w1" Chain.Ethereum 1 [1, 2, 3] (fun _ => true)
          true true true).status = 201 ∧
      (create_wallet ⟨[], []⟩ 7 "w1" Chain.Ethereum 1 [1, 2, 3] (fun _ => true)
          true true true).db.wallets
        = (DbState.mk [] []).wallets ++ [⟨1, 7, "w1", Chain.Ethereum⟩]) ∧
    ((∃ p ∈ [1, 2, 3], (fun _ : Nat => true) p = false) →
      (create_wallet ⟨[], []⟩ 7 "w1" Chain.Ethereum 1 [1, 2, 3] (fun _ => true)
          true true true).status = 500 ∧
      (create_wallet ⟨[], []⟩ 7 "w1" Chain.Ethereum 1 [1, 2, 3] (fun _ => true)
          true true true).db = ⟨[], []⟩) ∧
    ((create_wallet ⟨[], []⟩ 7 "w1" Chain.Ethereum 1 [1, 2, 3] (fun _ => true)
        true true true).status ≠ 201 →
      (create_wallet ⟨[], []⟩ 7 "w1" Chain.Ethereum 1 [1, 2, 3] (fun _ => true)
          true true true).db = ⟨[], []⟩) :=
  claim_C1_create_wallet_atomic ⟨[], []⟩ 7 "w1" Chain.Ethereum 1 [1, 2, 3]
    (fun _ => true) true

/-- C9: a sign-transaction request on an owned wallet whose chain is not
Ethereum (the only other chain being Bitcoin) is refused with 400
"Chain not supported" before any `SignTx` invocation, and since the open
DB transaction is never committed the inserted `Transaction` row does not
persist: the database and the chain provider are left unchanged. -/
theorem claim_C9_unsupported_chain (db : DbState) (user_id wallet_id : Int)
    (dest : List Nat) (value : Nat) (participants : List Nat)
    (signResult : Nat → Option (List Nat × List Nat × Nat)) (txnId : Int)
    (commitOk submitOk receiptOk : Bool) (chain0 : List (List Nat))
    (w : Wallet) (hw : db.wallets.find? (fun w' => w'.id == wallet_id) = some w)
    (hown : w.user_id = user_id) (hchain : w.chain = Chain.Bitcoin) :
    send_tx db user_id wallet_id dest value participants signResult txnId
      true true commitOk submitOk receiptOk chain0
      = ⟨400, some "Chain not supported", db, [], none, chain0, []⟩ := by
  have hbne : (w.user_id != user_id) = false := by simp [hown]
  simp [send_tx, hw, hbne, hchain]

/-- Witness for C9 on a one-wallet database holding a Bitcoin wallet. -/
theorem claim_C9_unsupported_chain_witness :
    send_tx ⟨[⟨1, 7, "w", Chain.Bitcoin⟩], []⟩ 7 1 [] 5 [1, 2, 3]
      (fun _ => some ([1], [1], 0)) 9 true true true true true []
      = ⟨400, some "Chain not supported", ⟨[⟨1, 7, "w", Chain.Bitcoin⟩], []⟩,
          [], none, [], []⟩ :=
  claim_C9_unsupported_chain ⟨[⟨1, 7, "w", Chain.Bitcoin⟩], []⟩ 7 1 [] 5
    [1, 2, 3] (fun _ => some ([1], [1], 0)) 9 true true true []
    ⟨1, 7, "w", Chain.Bitcoin⟩ (by decide) rfl rfl

/-- C2: the sign-transaction ceremony invokes `SignTx` on exactly the first
`t = 2` configured participants; if either fails the handler rolls back and
returns 500 with the database unchanged; otherwise the `(r, s, v)` it
consumes is the first participant's response alone — the second response's
value is never combined in. -/
theorem claim_C2_sign_fanout (db : DbState) (user_id wallet_id : Int)
    (dest : List Nat) (value : Nat) (p0 p1 : Nat) (rest : List Nat)
    (signResult : Nat → Option (List Nat × List Nat × Nat)) (txnId : Int)
    (commitOk submitOk receiptOk : Bool) (chain0 : List (List Nat))
    (w : Wallet) (res : SendTxResult)
    (hw : db.wallets.find? (fun w' => w'.id == wallet_id) = some w)
    (hown : w.user_id = user_id) (hchain : w.chain = Chain.Ethereum)
    (hres : send_tx db user_id wallet_id dest value (p0 :: p1 :: rest)
      signResult txnId true true commitOk submitOk receiptOk chain0 = res) :
    res.invoked = [p0, p1] ∧
    ((signResult p0 = none ∨ signResult p1 = none) →
      res.status = 500 ∧ res.db = db ∧ res.events = [Event.rollback]) ∧
    (∀ t0 t1, signResult p0 = some t0 → signResult p1 = some t1 →
      res.usedSignature = some t0) := by
  subst hres
  have hbne : (w.user_id != user_id) = false := by simp [hown]
  refine ⟨?_, ?_, ?_⟩
  · rcases hs0 : signResult p0 with _ | ⟨r0, s0, v0⟩ <;>
      rcases hs1 : signResult p1 with _ | ⟨r1, s1, v1⟩ <;>
        cases commitOk <;> cases submitOk <;> cases receiptOk <;>
          simp [send_tx, firstSignature, hw, hbne, hchain, hs0, hs1]
  · intro hor
    cases hor with
    | inl h0 => simp [send_tx, firstSignature, hw, hbne, hchain, h0]
    | inr h1 =>
      rcases hs0 : signResult p0 with _ | ⟨r0, s0, v0⟩ <;>
        simp [send_tx, firstSignature, hw, hbne, hchain, hs0, h1]
  · intro t0 t1 h0 h1
    obtain ⟨r0, s0, v0⟩ := t0
    obtain ⟨r1, s1, v1⟩ := t1
    cases commitOk <;> cases submitOk <;> cases receiptOk <;>
      simp [send_tx, firstSignature, hw, hbne, hchain, h0, h1]

/-- Witness for C2 with both signers failing. -/
theorem claim_C2_sign_fanout_witness :
    (SendTxResult.mk 500 (some "Failed to sign transaction")
        ⟨[⟨1, 7, "w", Chain.Ethereum⟩], []⟩ [1, 2] none [] [Event.rollback]).invoked
      = [1, 2] ∧
    (((fun _ : Nat => (none : Option (List Nat × List Nat × Nat))) 1 = none ∨
        (fun _ : Nat => (none : Option (List Nat × List Nat × Nat))) 2 = none) →
      (SendTxResult.mk 500 (some "Failed to sign transaction")
          ⟨[⟨1, 7, "w", Chain.Ethereum⟩], []⟩ [1, 2] none []
          [Event.rollback]).status = 500 ∧
      (SendTxResult.mk 500 (some "Failed to sign transaction")
          ⟨[⟨1, 7, "w", Chain.Ethereum⟩], []⟩ [1, 2] none []
          [Event.rollback]).db = ⟨[⟨1, 7, "w", Chain.Ethereum⟩], []⟩ ∧
      (SendTxResult.mk 500 (some "Failed to sign transaction")
          ⟨[⟨1, 7, "w", Chain.Ethereum⟩], []⟩ [1, 2] none []
          [Event.rollback]).events = [Event.rollback]) ∧
    (∀ t0 t1,
      (fun _ : Nat => (none : Option (List Nat × List Nat × Nat))) 1 = some t0 →
      (fun _ : Nat => (none : Option (List Nat × List Nat × Nat))) 2 = some t1 →
      (SendTxResult.mk 500 (some "Failed to sign transaction")
          ⟨[⟨1, 7, "w", Chain.Ethereum⟩], []⟩ [1, 2] none []
          [Event.rollback]).usedSignature = some t0) :=
  claim_C2_sign_fanout ⟨[⟨1, 7, "w", Chain.Ethereum⟩], []⟩ 7 1 [] 5 1 2 []
    (fun _ => none) 9 true true true []
    ⟨1, 7, "w", Chain.Ethereum⟩ _ (by decide) rfl rfl (by decide)

theorem send_tx_events_shape (db : DbState) (user_id wallet_id : Int)
    (dest : List Nat) (value : Nat) (participants : List Nat)
    (signResult : Nat → Option (List Nat × List Nat × Nat)) (txnId : Int)
    (beginOk insertOk commitOk submitOk receiptOk : Bool)
    (chain0 : List (List Nat)) :
    (send_tx db user_id wallet_id dest value participants signResult txnId
        beginOk insertOk commitOk submitOk receiptOk chain0).events = [] ∨
    (send_tx db user_id wallet_id dest value participants signResult txnId
        beginOk insertOk commitOk submitOk receiptOk chain0).events
      = [Event.rollback] ∨
    (send_tx db user_id wallet_id dest value participants signResult txnId
        beginOk insertOk commitOk submitOk receiptOk chain0).events
      = [Event.commit] ∨
    (send_tx db user_id wallet_id dest value participants signResult txnId
        beginOk insertOk commitOk submitOk receiptOk chain0).events
      = [Event.commit, Event.submit] := by
  cases beginOk with
  | false => left; simp [send_tx]
  | true =>
    rcases hf : db.wallets.find? (fun w' => w'.id == wallet_id) with _ | w
    · left; simp [send_tx, hf]
    · cases hbne : w.user_id != user_id with
      | true => left; simp [send_tx, hf, hbne]
      | false =>
        cases insertOk with
        | false => left; simp [send_tx, hf, hbne]
        | true =>
          cases hch : w.chain with
          | Bitcoin => left; simp [send_tx, hf, hbne, hch]
          | Ethereum =>
            rcases hsig : firstSignature ((participants.map signResult).take 2)
              with _ | ⟨r, s, v⟩
            · right; left; simp [send_tx, hf, hbne, hch, hsig]
            · cases commitOk with
              | false => left; simp [send_tx, hf, hbne, hch, hsig]
              | true =>
                cases submitOk with
                | false =>
                  right; right; left; simp [send_tx, hf, hbne, hch, hsig]
                | true =>
                  cases receiptOk with
                  | false =>
                    right; right; right; simp [send_tx, hf, hbne, hch, hsig]
                  | true =>
                    right; right; right; simp [send_tx, hf, hbne, hch, hsig]

theorem send_tx_chain_change (db : DbState) (user_id wallet_id : Int)
    (dest : List Nat) (value : Nat) (participants : List Nat)
    (signResult : Nat → Option (List Nat × List Nat × Nat)) (txnId : Int)
    (beginOk insertOk commitOk submitOk receiptOk : Bool)
    (chain0 : List (List Nat))
    (hch : (send_tx db user_id wallet_id dest value participants signResult txnId
      beginOk insertOk commitOk submitOk receiptOk chain0).chain ≠ chain0) :
    commitOk = true ∧
    (send_tx db user_id wallet_id dest value participants signResult txnId
        beginOk insertOk commitOk submitOk receiptOk chain0).events
      = [Event.commit, Event.submit] := by
  cases beginOk with
  | false => exact absurd (by simp [send_tx]) hch
  | true =>
    rcases hf : db.wallets.find? (fun w' => w'.id == wallet_id) with _ | w
    · exact absurd (by simp [send_tx, hf]) hch
    · cases hbne : w.user_id != user_id with
      | true => exact absurd (by simp [send_tx, hf, hbne]) hch
      | false =>
        cases insertOk with
        | false => exact absurd (by simp [send_tx, hf, hbne]) hch
        | true =>
          cases hchain : w.chain with
          | Bitcoin => exact absurd (by simp [send_tx, hf, hbne, hchain]) hch
          | Ethereum =>
            rcases hsig : firstSignature ((participants.map signResult).take 2)
              with _ | ⟨r, s, v⟩
            · exact absurd (by simp [send_tx, hf, hbne, hchain, hsig]) hch
            · cases commitOk with
              | false => exact absurd (by simp [send_tx, hf, hbne, hchain, hsig]) hch
              | true =>
                cases submitOk with
                | false =>
                  exact absurd (by simp [send_tx, hf, hbne, hchain, hsig]) hch
                | true =>
                  cases receiptOk with
                  | false =>
                    exact ⟨rfl, by simp [send_tx, hf, hbne, hchain, hsig]⟩
                  | true =>
                    exact ⟨rfl, by simp [send_tx, hf, hbne, hchain, hsig]⟩

/-- C7 as stated fails in the receipt-wait case: at a concrete input where
the commit succeeds, `send_raw_transaction` is accepted and only
`get_receipt` fails, the client sees 500 and the `Transaction` row is
persisted, but the submitted transaction *is* with the chain provider —
"nothing is on chain" does not hold. -/
theorem claim_C7_counterexample :
    (send_tx ⟨[⟨1, 7, "w", Chain.Ethereum⟩], []⟩ 7 1 (List.replicate 20 0) 5
        [1, 2] (fun _ => some ([2], [3], 37)) 9 true true true true false
        []).status = 500 ∧
    (send_tx ⟨[⟨1, 7, "w", Chain.Ethereum⟩], []⟩ 7 1 (List.replicate 20 0) 5
        [1, 2] (fun _ => some ([2], [3], 37)) 9 true true true true false
        []).db.transactions = [⟨9, 7, 1⟩] ∧
    (send_tx ⟨[⟨1, 7, "w", Chain.Ethereum⟩], []⟩ 7 1 (List.replicate 20 0) 5
        [1, 2] (fun _ => some ([2], [3], 37)) 9 true true true true false
        []).chain ≠ [] := by
  refine ⟨by decide, by decide, by decide⟩

/-- C7 (amended): the DB commit always precedes chain submission — the
effect sequence is always one of `[]`, `[rollback]`, `[commit]`,
`[commit, submit]`, and the provider's state changes only on the
`[commit, submit]` path, so nothing is ever submitted before a successful
commit. On the committed path: if the submit fails, the `Transaction` row
stays persisted, nothing reaches the chain and the client sees 500; if the
submit succeeds and only the receipt wait fails, the row stays persisted
and the client sees 500, but the submitted transaction is already with the
provider. -/
theorem claim_C7_commit_before_submit (db : DbState) (user_id wallet_id : Int)
    (dest : List Nat) (value : Nat) (p0 p1 : Nat) (rest : List Nat)
    (signResult : Nat → Option (List Nat × List Nat × Nat)) (txnId : Int)
    (beginOk insertOk commitOk submitOk receiptOk : Bool)
    (chain0 : List (List Nat)) (w : Wallet)
    (r0 s0 : List Nat) (v0 : Nat) (res : SendTxResult)
    (hw : db.wallets.find? (fun w' => w'.id == wallet_id) = some w)
    (hown : w.user_id = user_id) (hchain : w.chain = Chain.Ethereum)
    (h0 : signResult p0 = some (r0, s0, v0))
    (hres : send_tx db user_id wallet_id dest value (p0 :: p1 :: rest)
      signResult txnId beginOk insertOk commitOk submitOk receiptOk chain0
      = res) :
    (res.events = [] ∨ res.events = [Event.rollback] ∨
      res.events = [Event.commit] ∨
      res.events = [Event.commit, Event.submit]) ∧
    (res.chain ≠ chain0 →
      commitOk = true ∧ res.events = [Event.commit, Event.submit]) ∧
    (beginOk = true → insertOk = true → commitOk = true → submitOk = false →
      (∀ t1, signResult p1 = some t1 →
        res.status = 500 ∧
        res.db.transactions = db.transactions ++ [⟨txnId, user_id, wallet_id⟩] ∧
        res.chain = chain0 ∧ res.events = [Event.commit])) ∧
    (beginOk = true → insertOk = true → commitOk = true → submitOk = true →
      receiptOk = false →
      (∀ t1, signResult p1 = some t1 →
        res.status = 500 ∧
        res.db.transactions = db.transactions ++ [⟨txnId, user_id, wallet_id⟩] ∧
        res.chain = chain0 ++
          [(SignedTransaction.mk 10 1000000000 21000 dest value [] v0
            (fromBE r0) (fromBE s0)).encode] ∧
        res.events = [Event.commit, Event.submit])) := by
  subst hres
  have hbne : (w.user_id != user_id) = false := by simp [hown]
  refine ⟨send_tx_events_shape _ _ _ _ _ _ _ _ _ _ _ _ _ _,
    fun hch => send_tx_chain_change _ _ _ _ _ _ _ _ _ _ _ _ _ _ hch, ?_, ?_⟩
  · intro hb hi hc hs t1 h1
    obtain ⟨r1, s1, v1⟩ := t1
    subst hb hi hc hs
    simp [send_tx, firstSignature, hw, hbne, hchain, h0, h1]
  · intro hb hi hc hs hr t1 h1
    obtain ⟨r1, s1, v1⟩ := t1
    subst hb hi hc hs hr
    simp [send_tx, firstSignature, hw, hbne, hchain, h0, h1]

/-- Witness for C7 (amended) at the submit-failure input. -/
theorem claim_C7_commit_before_submit_witness :
    (send_tx ⟨[⟨1, 7, "w", Chain.Ethereum⟩], []⟩ 7 1 [] 5 [1, 2]
        (fun _ => some (([2], [3], 37) : List Nat × List Nat × Nat)) 9
        true true true false true []).events = [] ∨
    (send_tx ⟨[⟨1, 7, "w", Chain.Ethereum⟩], []⟩ 7 1 [] 5 [1, 2]
        (fun _ => some (([2], [3], 37) : List Nat × List Nat × Nat)) 9
        true true true false true []).events = [Event.rollback] ∨
    (send_tx ⟨[⟨1, 7, "w", Chain.Ethereum⟩], []⟩ 7 1 [] 5 [1, 2]
        (fun _ => some (([2], [3], 37) : List Nat × List Nat × Nat)) 9
        true true true false true []).events = [Event.commit] ∨
    (send_tx ⟨[⟨1, 7, "w", Chain.Ethereum⟩], []⟩ 7 1 [] 5 [1, 2]
        (fun _ => some (([2], [3], 37) : List Nat × List Nat × Nat)) 9
        true true true false true []).events = [Event.commit, Event.submit] :=
  (claim_C7_commit_before_submit ⟨[⟨1, 7, "w", Chain.Ethereum⟩], []⟩ 7 1 [] 5
    1 2 [] (fun _ => some (([2], [3], 37) : List Nat × List Nat × Nat)) 9
    true true true false true [] ⟨1, 7, "w", Chain.Ethereum⟩ [2] [3] 37 _
    (by decide) rfl rfl rfl rfl).1

/-- C8: RLP round-trip — for every unsigned transaction value
`[nonce, gas_price, gas_limit, to, value, data]` and every signed
transaction value `[nonce, gas_price, gas_limit, to, value, data, v, r, s]`
whose fields lie in their Rust-type ranges, RLP-encoding and then decoding
recovers field-identical values (consuming the whole encoding). -/
theorem claim_C8_rlp_roundtrip (utx : RawTransaction) (stx : SignedTransaction)
    (hu : utx.wf) (hs : stx.wf) :
    RawTransaction.decode utx.encode = some (utx, []) ∧
    SignedTransaction.decode stx.encode = some (stx, []) :=
  ⟨rawTransaction_decode_encode utx hu, signedTransaction_decode_encode stx hs⟩

/-- Witness for C8 at the transaction values the orchestrator builds
(`nonce = 10`, `gas_price = 10^9`, `gas_limit = 21000`). -/
theorem claim_C8_rlp_roundtrip_witness :
    RawTransaction.decode (RawTransaction.encode
        ⟨10, 1000000000, 21000, List.replicate 20 17, 5, [1, 2, 3]⟩)
      = some (⟨10, 1000000000, 21000, List.replicate 20 17, 5, [1, 2, 3]⟩, []) ∧
    SignedTransaction.decode (SignedTransaction.encode
        ⟨10, 1000000000, 21000, List.replicate 20 17, 5, [1, 2, 3], 37, 901, 902⟩)
      = some
        (⟨10, 1000000000, 21000, List.replicate 20 17, 5, [1, 2, 3], 37, 901, 902⟩,
          []) :=
  claim_C8_rlp_roundtrip
    ⟨10, 1000000000, 21000, List.replicate 20 17, 5, [1, 2, 3]⟩
    ⟨10, 1000000000, 21000, List.replicate 20 17, 5, [1, 2, 3], 37, 901, 902⟩
    (by decide) (by decide)

end MpcWaas
